import Mathlib

/-!
Shallow embedding of the mt7601u USB-DMA core (`dma.c`) and proofs about it.

Bytes are modelled as natural numbers reduced mod 256 at each read; buffers
are lists of bytes; machine-integer status codes are `Int`.  Constants whose
values come from the driver's headers (which are not part of this file set)
are modelled from the spec and marked as such.
-/

namespace Mt7601u

/-! ## Constants (header geometry) -/

/-- Modelled from the spec: `MT_DMA_HDR_LEN` from the driver's `dma.h`
(fixed DMA header preceding a segment's payload). -/
def MT_DMA_HDR_LEN : Nat := 4

/-- Modelled from the spec: `MT_RX_INFO_LEN` from the driver's `dma.h`
(fixed receive-info block size). -/
def MT_RX_INFO_LEN : Nat := 4

/-- Modelled from the spec: `MT_FCE_INFO_LEN` from the driver's `dma.h`
(fixed trailing side-channel descriptor size). -/
def MT_FCE_INFO_LEN : Nat := 4

/-- `MT_DMA_HDRS = MT_DMA_HDR_LEN + MT_RX_INFO_LEN`, the fixed header total
added to `dma_len` to obtain a segment's on-wire length. -/
def MT_DMA_HDRS : Nat := MT_DMA_HDR_LEN + MT_RX_INFO_LEN

/-- Modelled from the spec: `sizeof(struct mt7601u_rxwi)`; the structure lives
in the driver's main header, not in `dma.c`. -/
def mt7601u_rxwi_size : Nat := 28

/-- Modelled from the spec: the L2-pad flag is a single bit inside the
receive-info header's first 32-bit word; the exact bit index is taken from
the driver's header. -/
def MT_RXINFO_L2PAD_BIT : Nat := 11

/-! ## Byte-level reads -/

/-- `get_unaligned_le16`: little-endian 16-bit read of the first two bytes. -/
def get_unaligned_le16 (data : List Nat) : Nat :=
  data.getD 0 0 % 256 + 256 * (data.getD 1 0 % 256)

/-! ## Receive reassembly (`mt7601u_rx_next_seg_len`, the loop in
`mt7601u_rx_process_entry`, `ieee80211_get_hdrlen_from_buf`,
`mt7601u_rx_skb_from_seg`) -/

/-- Embedding of `mt7601u_rx_next_seg_len` from `dma.c`: returns the full
length of the next aggregated segment, or `0` to stop reassembly. -/
def mt7601u_rx_next_seg_len (data : List Nat) (data_len : Nat) : Nat :=
  let min_seg_len := MT_DMA_HDR_LEN + MT_RX_INFO_LEN +
      mt7601u_rxwi_size + MT_FCE_INFO_LEN
  let dma_len := get_unaligned_le16 data
  if data_len < min_seg_len ∨ dma_len = 0 ∨
      dma_len + MT_DMA_HDRS > data_len ∨ dma_len % 4 ≠ 0 then
    0
  else
    MT_DMA_HDRS + dma_len

/-- The reject condition of `mt7601u_rx_next_seg_len`, spelled out. -/
def rx_seg_reject (data : List Nat) (data_len : Nat) : Prop :=
  data_len < MT_DMA_HDR_LEN + MT_RX_INFO_LEN + mt7601u_rxwi_size + MT_FCE_INFO_LEN ∨
  get_unaligned_le16 data = 0 ∨
  get_unaligned_le16 data + MT_DMA_HDRS > data_len ∨
  get_unaligned_le16 data % 4 ≠ 0

instance (data : List Nat) (data_len : Nat) :
    Decidable (rx_seg_reject data data_len) := by
  unfold rx_seg_reject; infer_instance

/-- `mt7601u_rx_next_seg_len` is never larger than the remaining bytes. -/
theorem rx_next_seg_len_le (data : List Nat) (data_len : Nat) :
    mt7601u_rx_next_seg_len data data_len ≤ data_len := by
  unfold mt7601u_rx_next_seg_len
  dsimp only
  split
  · exact Nat.zero_le _
  · rename_i h
    push_neg at h
    omega

/-- When `mt7601u_rx_next_seg_len` accepts, the result is at least
`MT_DMA_HDRS + 4` (so strictly positive). -/
theorem rx_next_seg_len_lower (data : List Nat) (data_len : Nat)
    (h : mt7601u_rx_next_seg_len data data_len ≠ 0) :
    MT_DMA_HDRS + 4 ≤ mt7601u_rx_next_seg_len data data_len := by
  unfold mt7601u_rx_next_seg_len at *
  dsimp only at *
  split at h
  · exact absurd rfl h
  · rename_i hc
    rw [if_neg hc]
    push_neg at hc
    omega

/-- The segment-length loop of `mt7601u_rx_process_entry`, returning the
list of segment lengths processed from one completed buffer (the source
advances `data` and decrements `data_len` by each accepted length). -/
def rx_entry_seg_lens (data : List Nat) (data_len : Nat) : List Nat :=
  let seg_len := mt7601u_rx_next_seg_len data data_len
  if h : seg_len = 0 then
    []
  else
    seg_len :: rx_entry_seg_lens (data.drop seg_len) (data_len - seg_len)
termination_by data_len
decreasing_by
  have hle := rx_next_seg_len_le data data_len
  have hlo := rx_next_seg_len_lower data data_len h
  omega

/-- Embedding of `mt7601u_rx_process_entry` from `dma.c`: when the driver is
initialized it runs the segment loop over the buffer's filled byte range and
returns the processed segment lengths (the segment count `cnt` is their
number); otherwise it returns immediately. -/
def mt7601u_rx_process_entry (initialized : Bool) (data : List Nat)
    (data_len : Nat) : List Nat :=
  if initialized then rx_entry_seg_lens data data_len else []

/-- Embedding of `ieee80211_get_hdrlen_from_buf` from `dma.c`.  The
802.11 header-length computation `ieee80211_hdrlen` is an external mac80211
collaborator, passed in as a function of the 16-bit frame-control field
(the first two bytes of the buffer). -/
def ieee80211_get_hdrlen_from_buf (hdrlen_fc : Nat → Nat) (data : List Nat)
    (len : Nat) : Nat :=
  if len < 10 then 0
  else
    let hdrlen := hdrlen_fc (get_unaligned_le16 data)
    if hdrlen > len then 0 else hdrlen

/-- Embedding of `mt7601u_rx_skb_from_seg` from `dma.c` (allocation assumed
to succeed; an allocation failure drops the frame upstream).  Returns the
allocated frame size together with the bytes copied into the frame. -/
def mt7601u_rx_skb_from_seg (hdrlen_fc : Nat → Nat) (rxinfo : Nat)
    (data : List Nat) (seg_len : Nat) : Nat × List Nat :=
  let l2pad := rxinfo.testBit MT_RXINFO_L2PAD_BIT
  let seg_len := if l2pad then seg_len - 2 else seg_len
  let alloc := seg_len
  if l2pad then
    let hdr_len := ieee80211_get_hdrlen_from_buf hdrlen_fc data seg_len
    let hdr := data.take hdr_len
    let data := data.drop (hdr_len + 2)
    let seg_len := seg_len - hdr_len
    (alloc, hdr ++ data.take seg_len)
  else
    (alloc, data.take seg_len)

/-! ## Receive queue state and completion -/

/-- One receive Transfer Buffer: the transport handle (identified by `urbId`)
with its last reported status (`e->urb->status`). -/
structure RxBuf where
  urbId : Nat
  status : Int
  deriving DecidableEq, Repr, Inhabited

/-- The receive ring (`struct mt7601u_rx_queue`): `entries` buffers, `start`
(processor cursor), `end_` (completion cursor) and the `pending` count. -/
structure RxQueue where
  entries : Nat
  start : Nat
  end_ : Nat
  pending : Nat
  e : List RxBuf
  deriving DecidableEq, Repr

/-- Embedding of `mt7601u_complete_rx` from `dma.c`: a completion carrying
urb identity `uid` and transport status `status`.  On a slot mismatch at
`end` nothing changes (`WARN_ONCE` then bail); otherwise the urb's status is
recorded, `end` advances and `pending` is incremented.  The returned `Bool`
is whether the deferred-processing tasklet was scheduled. -/
def mt7601u_complete_rx (q : RxQueue) (uid : Nat) (status : Int) :
    RxQueue × Bool :=
  if (q.e.getD q.end_ default).urbId ≠ uid then
    (q, false)
  else
    ({ q with
        e := q.e.set q.end_ { urbId := uid, status := status },
        end_ := (q.end_ + 1) % q.entries,
        pending := q.pending + 1 }, true)

/-- Embedding of `mt7601u_rx_get_pending_entry` from `dma.c`: pop the oldest
pending entry (index and buffer) or return `none` when nothing is pending. -/
def mt7601u_rx_get_pending_entry (q : RxQueue) :
    Option (Nat × RxBuf) × RxQueue :=
  if q.pending = 0 then
    (none, q)
  else
    (some (q.start, q.e.getD q.start default),
     { q with pending := q.pending - 1,
              start := (q.start + 1) % q.entries })

/-- The completion handler passed on resubmission (`mt7601u_complete_rx`). -/
inductive RxHandler where
  | completeRx
  deriving DecidableEq, Repr

/-- Observable actions of the deferred RX processor: reassembling an
entry's buffer, and resubmitting an entry's buffer to the transport with a
given completion handler. -/
inductive RxEvent where
  | process (i : Nat)
  | submit (i : Nat) (handler : RxHandler)
  deriving DecidableEq, Repr

/-- The body of `mt7601u_rx_tasklet`'s drain loop, with fuel.  Each popped
entry with a zero urb status is processed and resubmitted with
`mt7601u_complete_rx`; a popped entry with a failure status is skipped via
`continue`. -/
def rx_tasklet_go : Nat → RxQueue → RxQueue × List RxEvent
  | 0, q => (q, [])
  | n + 1, q =>
    match mt7601u_rx_get_pending_entry q with
    | (none, q') => (q', [])
    | (some (i, b), q') =>
      let evs := if b.status = 0 then
          [RxEvent.process i, RxEvent.submit i RxHandler.completeRx]
        else []
      let r := rx_tasklet_go n q'
      (r.1, evs ++ r.2)

/-- Embedding of `mt7601u_rx_tasklet` from `dma.c`: drain all pending
entries (the pop decrements `pending` by one each time, so `pending` steps
of fuel drain the queue exactly). -/
def mt7601u_rx_tasklet (q : RxQueue) : RxQueue × List RxEvent :=
  rx_tasklet_go q.pending q

/-! ## Transmit queues -/

/-- An outgoing frame (`struct sk_buff`): its bytes and the logical queue
mapping recorded by the upper layer (`skb_get_queue_mapping`). -/
structure Skb where
  queueMapping : Nat
  bytes : List Nat
  deriving DecidableEq, Repr, Inhabited

/-- One transmit-queue slot: the slot's transport handle and the frame it
currently owns. -/
structure TxSlot where
  urbId : Nat
  skb : Skb
  deriving DecidableEq, Repr, Inhabited

/-- A transmit ring (`struct mt7601u_tx_queue`). -/
structure TxQueue where
  entries : Nat
  start : Nat
  end_ : Nat
  used : Nat
  e : List TxSlot
  deriving DecidableEq, Repr, Inhabited

/-- Observable interactions of the transmit path with its collaborators. -/
inductive TxEvent where
  | txStatus (queueMapping : Nat)
  | wakeQueue (queueMapping : Nat)
  | stopQueue (queueMapping : Nat)
  | scheduleStatsWork
  deriving DecidableEq, Repr

/-- Result of `mt7601u_complete_tx`: the queue afterwards, the
more-stats / reading-stats device flags afterwards, and the emitted
collaborator events in order. -/
structure CompleteTxResult where
  q : TxQueue
  moreStats : Bool
  readingStats : Bool
  events : List TxEvent
  deriving DecidableEq, Repr

/-- Embedding of `mt7601u_complete_tx` from `dma.c`.  `uid`/`status` are the
completing urb's identity and transport status.  On a mismatch with the slot
at `start`, bail (`WARN_ONCE`).  Otherwise report the frame's outcome,
wake the frame's mapped queue when `used` equals
`entries - entries/8` before the decrement, advance `start`, decrement
`used`, and (on a zero status) mark more-stats and schedule a statistics
refresh unless one is already being read. -/
def mt7601u_complete_tx (q : TxQueue) (uid : Nat) (status : Int)
    (moreStats readingStats : Bool) : CompleteTxResult :=
  if (q.e.getD q.start default).urbId ≠ uid then
    { q := q, moreStats := moreStats, readingStats := readingStats,
      events := [] }
  else
    let skb := (q.e.getD q.start default).skb
    let evs := [TxEvent.txStatus skb.queueMapping] ++
      (if q.used = q.entries - q.entries / 8 then
        [TxEvent.wakeQueue skb.queueMapping]
      else [])
    let q' := { q with start := (q.start + 1) % q.entries,
                       used := q.used - 1 }
    if status ≠ 0 then
      { q := q', moreStats := moreStats, readingStats := readingStats,
        events := evs }
    else if readingStats then
      { q := q', moreStats := true, readingStats := true, events := evs }
    else
      { q := q', moreStats := true, readingStats := true,
        events := evs ++ [TxEvent.scheduleStatsWork] }

/-- `-ENOSPC` and `-ENODEV`, as returned through the TX submission path. -/
def ENOSPC : Int := 28

def ENODEV : Int := 19

/-- Result of `mt7601u_dma_submit_tx`: return value, queue afterwards,
whether a transfer was actually handed to the transport, the device
removed flag afterwards, and emitted flow-control events. -/
structure SubmitTxResult where
  ret : Int
  q : TxQueue
  submitted : Bool
  removed : Bool
  events : List TxEvent
  deriving DecidableEq, Repr

/-- Embedding of `mt7601u_dma_submit_tx` from `dma.c`.  The transport's
verdict on `usb_submit_urb` is an environment input `submitRet` (`0` means
accepted).  A full queue fails with `-ENOSPC` before touching anything; a
transport rejection leaves the ring counters unchanged (`-ENODEV` also
marks the device removed); on success `end` advances, `used` is
incremented, and the mapped queue is stopped once `used` reaches
capacity. -/
def mt7601u_dma_submit_tx (q : TxQueue) (skb : Skb) (submitRet : Int)
    (removed : Bool) : SubmitTxResult :=
  if q.entries ≤ q.used then
    { ret := -ENOSPC, q := q, submitted := false, removed := removed,
      events := [] }
  else
    let slot := q.e.getD q.end_ default
    let q₁ := { q with e := q.e.set q.end_ { slot with skb := skb } }
    if submitRet ≠ 0 then
      { ret := submitRet, q := q₁, submitted := true,
        removed := removed || (submitRet = -ENODEV), events := [] }
    else
      let q₂ := { q₁ with end_ := (q₁.end_ + 1) % q₁.entries,
                          used := q₁.used + 1 }
      { ret := 0, q := q₂, submitted := true, removed := removed,
        events := if q₂.entries ≤ q₂.used then
            [TxEvent.stopQueue skb.queueMapping]
          else [] }

/-- Embedding of `q2ep` from `dma.c`: hardware queue id to USB endpoint
(u8 arithmetic). -/
def q2ep (qid : Nat) : Nat := (qid + 1) % 256

/-- The DMA engine's descriptor-selector tags (`enum mt76_qsel`). -/
inductive Mt76Qsel where
  | MT_QSEL_MGMT
  | MT_QSEL_EDCA
  deriving DecidableEq, Repr

/-- Embedding of `ep2dmaq` from `dma.c`: endpoint 5 selects the management
tag, every other endpoint the contention (EDCA) tag. -/
def ep2dmaq (ep : Nat) : Mt76Qsel :=
  if ep = 5 then Mt76Qsel.MT_QSEL_MGMT else Mt76Qsel.MT_QSEL_EDCA

/-- Modelled from the spec: the packet-type = 802.11 bit of the DMA-control
word (`MT_TXD_PKT_INFO_80211`; the header defining the value is not under
`src/`). -/
def MT_TXD_PKT_INFO_80211 : Nat := 1

/-- Modelled from the spec: the no-software-encryption (WIV) bit of the
DMA-control word (`MT_TXD_PKT_INFO_WIV`). -/
def MT_TXD_PKT_INFO_WIV : Nat := 2

/-- Modelled from the spec: `mt7601u_dma_skb_wrap_pkt` (defined in a header
not under `src/`) prepends the 4-byte DMA-control word — carrying the
payload length, the descriptor-selector tag and the packet-info flags — to
the frame. -/
def mt7601u_dma_skb_wrap_pkt (skb : Skb) (qsel : Mt76Qsel) (flags : Nat) :
    Skb :=
  let ctlWord : List Nat :=
    [skb.bytes.length % 256, skb.bytes.length / 256 % 256,
     (if qsel = Mt76Qsel.MT_QSEL_MGMT then 1 else 0), flags % 256]
  { skb with bytes := ctlWord ++ skb.bytes }

/-- Result of `mt7601u_dma_enqueue_tx`: the endpoint and DMA-control-word
fields it computed, the wrapped frame, and the submission outcome. -/
structure EnqueueTxResult where
  ep : Nat
  qsel : Mt76Qsel
  dmaFlags : Nat
  skb : Skb
  ret : Int
  q : TxQueue
  submitted : Bool
  removed : Bool
  events : List TxEvent
  deriving DecidableEq, Repr

/-- Embedding of `mt7601u_dma_enqueue_tx` from `dma.c`: compute the endpoint
with `q2ep`, build the DMA-control flags from the peer's hardware-key index
(`wcidHwKeyIdx`), wrap the frame in place, then submit. -/
def mt7601u_dma_enqueue_tx (q : TxQueue) (skb : Skb) (wcidHwKeyIdx : Nat)
    (hw_q : Nat) (submitRet : Int) (removed : Bool) : EnqueueTxResult :=
  let ep := q2ep hw_q
  let dmaFlags := MT_TXD_PKT_INFO_80211 |||
    (if wcidHwKeyIdx = 0xff then MT_TXD_PKT_INFO_WIV else 0)
  let skb' := mt7601u_dma_skb_wrap_pkt skb (ep2dmaq ep) dmaFlags
  let r := mt7601u_dma_submit_tx q skb' submitRet removed
  { ep := ep, qsel := ep2dmaq ep, dmaFlags := dmaFlags, skb := skb',
    ret := r.ret, q := r.q, submitted := r.submitted, removed := r.removed,
    events := r.events }

/-! ## Teardown (`mt7601u_kill_rx`, `mt7601u_free_rx`,
`mt7601u_free_tx_queue`, `mt7601u_dma_cleanup`) -/

/-- Observable actions of teardown, in program order. -/
inductive CleanupEvent where
  | poisonRx (i : Nat)
  | taskletKill
  | freeRxBuf (i : Nat)
  | warnTxUsed (ep : Nat)
  | freeTxUrb (ep : Nat) (i : Nat)
  deriving DecidableEq, Repr

/-- Status stored by the transport in a poisoned in-flight transfer
(`-ENOENT`). -/
def poisonStatus : Int := -2

/-- The loop of `mt7601u_kill_rx`, iterated `entries` times.  Each
iteration poisons the urb of the entry at the current `end` index.
Modelled from the spec: poisoning an in-flight transfer forces it to
complete with an error status before `usb_poison_urb` returns, so the RX
completion handler runs for that urb (matching the slot at `end` and
advancing it) and no later completion for it is ever delivered — teardown
starts from the all-submitted state, in which every entry's transfer is in
flight. -/
def kill_rx_go : Nat → RxQueue → RxQueue × List CleanupEvent
  | 0, q => (q, [])
  | n + 1, q =>
    let next := q.end_
    let q' := (mt7601u_complete_rx q (q.e.getD next default).urbId
      poisonStatus).1
    let r := kill_rx_go n q'
    (r.1, CleanupEvent.poisonRx next :: r.2)

/-- Embedding of `mt7601u_kill_rx` from `dma.c`. -/
def mt7601u_kill_rx (q : RxQueue) : RxQueue × List CleanupEvent :=
  kill_rx_go q.entries q

/-- Embedding of `mt7601u_free_rx` from `dma.c`: release every receive
buffer. -/
def mt7601u_free_rx (q : RxQueue) : List CleanupEvent :=
  (List.range q.entries).map CleanupEvent.freeRxBuf

/-- Embedding of `mt7601u_free_tx_queue` from `dma.c`: `WARN_ON(q->used)`
reports loudly when any slot is still marked used, then every slot's urb is
poisoned and freed. -/
def mt7601u_free_tx_queue (ep : Nat) (q : TxQueue) : List CleanupEvent :=
  (if q.used ≠ 0 then [CleanupEvent.warnTxUsed ep] else []) ++
  (List.range q.entries).map (CleanupEvent.freeTxUrb ep)

/-- Embedding of `mt7601u_free_tx` from `dma.c`: free every per-endpoint
transmit queue. -/
def mt7601u_free_tx (txqs : List TxQueue) : List CleanupEvent :=
  (List.range txqs.length).flatMap
    (fun ep => mt7601u_free_tx_queue ep (txqs.getD ep default))

/-- Embedding of `mt7601u_dma_cleanup` from `dma.c`: kill the receive ring,
kill the tasklet, release the receive buffers, free the transmit queues —
in that order. -/
def mt7601u_dma_cleanup (rxq : RxQueue) (txqs : List TxQueue) :
    RxQueue × List CleanupEvent :=
  let r := mt7601u_kill_rx rxq
  (r.1, r.2 ++ [CleanupEvent.taskletKill] ++ mt7601u_free_rx r.1 ++
    mt7601u_free_tx txqs)

/-- Whether a teardown event is a poisoning of a receive transfer. -/
def CleanupEvent.isPoison : CleanupEvent → Bool
  | CleanupEvent.poisonRx _ => true
  | _ => false

/-- Whether a teardown event releases a buffer or frees a transmit queue
slot. -/
def CleanupEvent.isRelease : CleanupEvent → Bool
  | CleanupEvent.freeRxBuf _ => true
  | CleanupEvent.warnTxUsed _ => true
  | CleanupEvent.freeTxUrb _ _ => true
  | _ => false

/-! ## The receive-ring transition system (completion / pop interleavings)

The transport completes at most the transfers actually in flight, strictly
FIFO, so a completion step carries the urb of the entry at `end` and is
enabled only while some transfer is in flight.  A pop step is
`mt7601u_rx_get_pending_entry`. -/

/-- Receive ring together with the number of in-flight transfers. -/
structure RxSys where
  q : RxQueue
  inflight : Nat
  deriving DecidableEq, Repr

/-- The two kinds of step interleaved on the receive ring. -/
inductive RingStep where
  | complete
  | pop
  deriving DecidableEq, Repr

/-- One step of the receive-ring system: a completion runs
`mt7601u_complete_rx` on the in-flight transfer at `end` (no-op when
nothing is in flight — the transport has nothing to complete); a pop runs
`mt7601u_rx_get_pending_entry`. -/
def rxSysStep (s : RxSys) : RingStep → RxSys
  | RingStep.complete =>
    if s.inflight = 0 then s
    else
      { q := (mt7601u_complete_rx s.q (s.q.e.getD s.q.end_ default).urbId
          0).1,
        inflight := s.inflight - 1 }
  | RingStep.pop =>
    { q := (mt7601u_rx_get_pending_entry s.q).2, inflight := s.inflight }

/-- Run a list of steps from a state. -/
def rxSysRun (s : RxSys) (steps : List RingStep) : RxSys :=
  steps.foldl rxSysStep s

/-- The all-submitted initial state of a ring with `n` entries: nothing
pending, every transfer in flight. -/
def rxSysInit (n : Nat) (q : RxQueue) : Prop :=
  q.entries = n ∧ q.e.length = n ∧ q.end_ < n ∧ q.start < n ∧
  q.pending = 0 ∧ q.start = q.end_

/-- Well-formedness preserved by every step: geometry plus the bound
`pending + inflight ≤ n`. -/
def rxSysWF (n : Nat) (s : RxSys) : Prop :=
  s.q.entries = n ∧ s.q.e.length = n ∧ s.q.end_ < n ∧ s.q.start < n ∧
  s.q.pending + s.inflight ≤ n

/-! ## Theorems -/

/-- `mt7601u_rx_next_seg_len` returns `0` exactly on the reject
condition. -/
theorem rx_next_seg_len_eq_zero_iff (data : List Nat) (data_len : Nat) :
    mt7601u_rx_next_seg_len data data_len = 0 ↔
      rx_seg_reject data data_len := by
  unfold mt7601u_rx_next_seg_len rx_seg_reject
  dsimp only
  split
  · rename_i hc
    exact iff_of_true rfl hc
  · rename_i hc
    exact iff_of_false
      (by norm_num [MT_DMA_HDRS, MT_DMA_HDR_LEN, MT_RX_INFO_LEN]) hc

/-- On acceptance the returned segment length is the fixed header total
plus `dma_len`. -/
theorem rx_next_seg_len_accept (data : List Nat) (data_len : Nat)
    (h : ¬ rx_seg_reject data data_len) :
    mt7601u_rx_next_seg_len data data_len =
      MT_DMA_HDRS + get_unaligned_le16 data := by
  unfold mt7601u_rx_next_seg_len
  dsimp only
  rw [if_neg]
  intro hc
  exact h hc

/-- C3.  Segment extraction halts without emitting anything for the current
or subsequent bytes exactly when the remaining region is below the minimum
viable segment size, or the little-endian 16-bit `dma_len` prefix is `0`,
or `dma_len` is not a multiple of 4, or `MT_DMA_HDRS + dma_len` exceeds the
remaining region; on acceptance the segment length is
`MT_DMA_HDRS + dma_len` and the cursor and remaining length advance by
exactly that amount before re-checking. -/
theorem rx_segmentation_halt_iff_reject (data : List Nat) (data_len : Nat) :
    (rx_entry_seg_lens data data_len = [] ↔ rx_seg_reject data data_len) ∧
    (¬ rx_seg_reject data data_len →
      mt7601u_rx_next_seg_len data data_len =
        MT_DMA_HDRS + get_unaligned_le16 data ∧
      rx_entry_seg_lens data data_len =
        (MT_DMA_HDRS + get_unaligned_le16 data) ::
          rx_entry_seg_lens
            (data.drop (MT_DMA_HDRS + get_unaligned_le16 data))
            (data_len - (MT_DMA_HDRS + get_unaligned_le16 data))) := by
  constructor
  · rw [rx_entry_seg_lens]
    split
    · rename_i h
      simp only [true_iff]
      exact (rx_next_seg_len_eq_zero_iff data data_len).1 h
    · rename_i h
      have hnr : ¬ rx_seg_reject data data_len :=
        fun hrej => h ((rx_next_seg_len_eq_zero_iff data data_len).2 hrej)
      exact iff_of_false (by simp) hnr
  · intro h
    have hacc := rx_next_seg_len_accept data data_len h
    refine ⟨hacc, ?_⟩
    rw [rx_entry_seg_lens]
    split
    · rename_i h0
      exact absurd ((rx_next_seg_len_eq_zero_iff data data_len).1 h0) h
    · rw [hacc]

/-- Closed witness for `rx_segmentation_halt_iff_reject`: a concrete
accepted segment (40-byte region, `dma_len = 32`). -/
theorem rx_segmentation_halt_iff_reject_witness :
    ¬ rx_seg_reject [32, 0] 40 ∧
    rx_entry_seg_lens [32, 0] 40 = [40] := by
  have h : ¬ rx_seg_reject [32, 0] 40 := by decide
  refine ⟨h, ?_⟩
  have h2 := (rx_segmentation_halt_iff_reject [32, 0] 40).2 h
  rw [h2.2]
  have h40 : MT_DMA_HDRS + get_unaligned_le16 [32, 0] = 40 := by
    norm_num [MT_DMA_HDRS, MT_DMA_HDR_LEN, MT_RX_INFO_LEN, get_unaligned_le16]
  rw [h40]
  have htail : rx_entry_seg_lens (List.drop 40 [32, 0]) (40 - 40) = [] :=
    (rx_segmentation_halt_iff_reject (List.drop 40 [32, 0]) (40 - 40)).1.mpr
      (by decide)
  rw [htail]

/-- C10.  The reassembly loop terminates: whenever
`mt7601u_rx_next_seg_len` is non-zero, its value is at least
`MT_DMA_HDRS + 4` and at most the remaining length, so the remaining
length strictly decreases on every iteration of the loop in
`mt7601u_rx_process_entry`. -/
theorem rx_process_entry_loop_decreases (data : List Nat) (data_len : Nat)
    (h : mt7601u_rx_next_seg_len data data_len ≠ 0) :
    MT_DMA_HDRS + 4 ≤ mt7601u_rx_next_seg_len data data_len ∧
    mt7601u_rx_next_seg_len data data_len ≤ data_len ∧
    data_len - mt7601u_rx_next_seg_len data data_len < data_len := by
  have h1 := rx_next_seg_len_lower data data_len h
  have h2 := rx_next_seg_len_le data data_len
  refine ⟨h1, h2, ?_⟩
  have : 0 < MT_DMA_HDRS + 4 := by norm_num [MT_DMA_HDRS]
  omega

/-- Closed witness for `rx_process_entry_loop_decreases` at the concrete
accepted segment. -/
theorem rx_process_entry_loop_decreases_witness :
    mt7601u_rx_next_seg_len [32, 0] 40 ≠ 0 ∧
    mt7601u_rx_next_seg_len [32, 0] 40 ≤ 40 := by
  have h : mt7601u_rx_next_seg_len [32, 0] 40 ≠ 0 := by decide
  exact ⟨h, (rx_process_entry_loop_decreases [32, 0] 40 h).2.1⟩

/-- C1 (counterexample to the claim as stated).  A ring with one pending
entry whose transfer completed with a transport error status (`-71`): the
deferred processor pops it and — contrary to the claim — issues no
resubmission of that buffer at all (the `continue` skips the resubmit step
too). -/
theorem rx_tasklet_error_no_resubmit_cex :
    ((⟨1, 0, 0, 1, [⟨0, -71⟩]⟩ : RxQueue).e.getD 0 default).status ≠ 0 ∧
    RxEvent.submit 0 RxHandler.completeRx ∉
      (mt7601u_rx_tasklet ⟨1, 0, 0, 1, [⟨0, -71⟩]⟩).2 := by
  decide

/-- C1 (amended).  When the popped pending entry carries a transport
failure status, the deferred processor skips both reassembly and
resubmission of that buffer and simply continues with the remaining
pending entries; an entry with a zero status is reassembled and then
resubmitted with the same RX completion handler. -/
theorem rx_tasklet_error_entry_skipped (q : RxQueue) (i : Nat) (b : RxBuf)
    (q' : RxQueue)
    (hpop : mt7601u_rx_get_pending_entry q = (some (i, b), q')) :
    (b.status ≠ 0 →
      (mt7601u_rx_tasklet q).2 = (mt7601u_rx_tasklet q').2) ∧
    (b.status = 0 →
      (mt7601u_rx_tasklet q).2 =
        RxEvent.process i :: RxEvent.submit i RxHandler.completeRx ::
          (mt7601u_rx_tasklet q').2) := by
  have hp : q.pending ≠ 0 := by
    intro h0
    rw [mt7601u_rx_get_pending_entry, if_pos h0] at hpop
    simp at hpop
  obtain ⟨n, hn⟩ : ∃ n, q.pending = n + 1 := ⟨q.pending - 1, by omega⟩
  have hq' : q'.pending = n := by
    rw [mt7601u_rx_get_pending_entry, if_neg hp] at hpop
    have hsnd := congrArg Prod.snd hpop
    simp only at hsnd
    rw [← hsnd]
    simp [hn]
  have hgo : mt7601u_rx_tasklet q =
      ((rx_tasklet_go n q').1,
        (if b.status = 0 then
            [RxEvent.process i, RxEvent.submit i RxHandler.completeRx]
          else []) ++ (rx_tasklet_go n q').2) := by
    rw [mt7601u_rx_tasklet, hn]
    simp only [rx_tasklet_go, hpop]
  constructor
  · intro hb
    rw [hgo, mt7601u_rx_tasklet, hq']
    simp [hb]
  · intro hb
    rw [hgo, mt7601u_rx_tasklet, hq']
    simp [hb]

/-- Closed witness for `rx_tasklet_error_entry_skipped`: a two-entry ring
whose oldest pending entry failed; its events are exactly those of the
ring with that entry already discarded. -/
theorem rx_tasklet_error_entry_skipped_witness :
    ((-71 : Int) ≠ 0) ∧
    (mt7601u_rx_tasklet ⟨2, 0, 0, 2, [⟨0, -71⟩, ⟨1, 0⟩]⟩).2 =
      (mt7601u_rx_tasklet ⟨2, 1, 0, 1, [⟨0, -71⟩, ⟨1, 0⟩]⟩).2 :=
  ⟨by decide,
   (rx_tasklet_error_entry_skipped ⟨2, 0, 0, 2, [⟨0, -71⟩, ⟨1, 0⟩]⟩ 0
      ⟨0, -71⟩ ⟨2, 1, 0, 1, [⟨0, -71⟩, ⟨1, 0⟩]⟩ (by decide)).1 (by decide)⟩

/-- Whether a transmit-path event is the queue-wake signal. -/
def TxEvent.isWake : TxEvent → Bool
  | TxEvent.wakeQueue _ => true
  | _ => false

/-- C2 (counterexample to the claim as stated).  Capacity 16, low-water
mark `16 - 16/8 = 14`: the completion observed at `used = 15` — the one
whose slot-reclaim brings `used` down to 14 — issues no wake. -/
theorem complete_tx_wake_off_by_one_cex :
    (mt7601u_complete_tx ⟨16, 0, 0, 15, [⟨5, ⟨2, []⟩⟩]⟩ 5 0 false
        false).q.used = 16 - 16 / 8 ∧
    (mt7601u_complete_tx ⟨16, 0, 0, 15, [⟨5, ⟨2, []⟩⟩]⟩ 5 0 false
        false).events.countP TxEvent.isWake = 0 := by
  decide

/-- C2 (amended).  For a completion handled at the expected slot, exactly
one wake for the frame's mapped queue is issued when `used` equals
`entries - entries/8` before the decrement (so the wake-issuing completion
brings `used` down to `entries - entries/8 - 1`), and none is issued at any
other pre-decrement `used` value; the completion then advances `start` and
decrements `used` by one. -/
theorem complete_tx_wake_at_mark (q : TxQueue) (uid : Nat) (status : Int)
    (more reading : Bool)
    (hmatch : (q.e.getD q.start default).urbId = uid) :
    ((mt7601u_complete_tx q uid status more reading).events.countP
        TxEvent.isWake =
      if q.used = q.entries - q.entries / 8 then 1 else 0) ∧
    (mt7601u_complete_tx q uid status more reading).q.used = q.used - 1 ∧
    (mt7601u_complete_tx q uid status more reading).q.start =
      (q.start + 1) % q.entries := by
  unfold mt7601u_complete_tx
  rw [if_neg (not_not_intro hmatch)]
  by_cases hmk : q.used = q.entries - q.entries / 8 <;>
    by_cases hs : status = 0 <;>
      by_cases hr : reading <;>
        simp [hmk, hs, hr, TxEvent.isWake, List.countP_cons,
          List.countP_append]

/-- Closed witness for `complete_tx_wake_at_mark`: at capacity 16 the
completion observed at `used = 14` issues exactly one wake. -/
theorem complete_tx_wake_at_mark_witness :
    ((⟨16, 0, 0, 14, [⟨5, ⟨2, []⟩⟩]⟩ : TxQueue).e.getD 0 default).urbId =
      5 ∧
    (mt7601u_complete_tx ⟨16, 0, 0, 14, [⟨5, ⟨2, []⟩⟩]⟩ 5 0 false
        false).events.countP TxEvent.isWake = 1 :=
  ⟨by decide, by
    have h := (complete_tx_wake_at_mark ⟨16, 0, 0, 14, [⟨5, ⟨2, []⟩⟩]⟩ 5 0
      false false (by decide)).1
    simpa using h⟩

/-- C4.  L2-padding round trip: a padded segment payload made of a
link-layer header (of the length the header-length computation reports for
it), 2 pad bytes and the remaining bytes reassembles — under the L2-pad
flag — to the header followed by the remaining bytes, with the pad removed,
no byte loss, and the frame allocated exactly to the copied length; with
the flag clear the payload is copied verbatim. -/
theorem rx_skb_from_seg_l2pad_roundtrip (hdrlen_fc : Nat → Nat)
    (rxinfo : Nat) (hdr pad rest : List Nat)
    (hl2 : rxinfo.testBit MT_RXINFO_L2PAD_BIT = true)
    (hpad : pad.length = 2)
    (hH : ieee80211_get_hdrlen_from_buf hdrlen_fc (hdr ++ pad ++ rest)
        (hdr.length + rest.length) = hdr.length) :
    mt7601u_rx_skb_from_seg hdrlen_fc rxinfo (hdr ++ pad ++ rest)
        (hdr.length + rest.length + 2) =
      (hdr.length + rest.length, hdr ++ rest) ∧
    (hdr ++ rest).length = hdr.length + rest.length ∧
    (∀ (rxinfo' : Nat) (data : List Nat) (seg_len : Nat),
      rxinfo'.testBit MT_RXINFO_L2PAD_BIT = false →
      mt7601u_rx_skb_from_seg hdrlen_fc rxinfo' data seg_len =
        (seg_len, data.take seg_len)) := by
  refine ⟨?_, by simp, ?_⟩
  · have hP2 : hdr.length + rest.length + 2 - 2 = hdr.length + rest.length := by
      omega
    have h1 : (hdr ++ pad ++ rest).take hdr.length = hdr := by
      rw [List.append_assoc, List.take_left]
    have h2 : (hdr ++ pad ++ rest).drop (hdr.length + 2) = rest := by
      have hlen : (hdr ++ pad).length = hdr.length + 2 := by simp [hpad]
      rw [← hlen, List.drop_left]
    have h3 : hdr.length + rest.length - hdr.length = rest.length := by omega
    simp only [mt7601u_rx_skb_from_seg, hl2, if_true, hP2, hH, h1, h2, h3,
      List.take_length]
  · intro rxinfo' data seg_len hflag
    simp [mt7601u_rx_skb_from_seg, hflag]

/-- Closed witness for `rx_skb_from_seg_l2pad_roundtrip`: a 10-byte header,
2 pad bytes and a 3-byte tail reassemble to the 13-byte unpadded frame. -/
theorem rx_skb_from_seg_l2pad_roundtrip_witness :
    ieee80211_get_hdrlen_from_buf (fun _ => 10)
        [0, 1, 2, 3, 4, 5, 6, 7, 8, 9, 255, 255, 11, 12, 13] 13 = 10 ∧
    mt7601u_rx_skb_from_seg (fun _ => 10) 2048
        [0, 1, 2, 3, 4, 5, 6, 7, 8, 9, 255, 255, 11, 12, 13] 15 =
      (13, [0, 1, 2, 3, 4, 5, 6, 7, 8, 9, 11, 12, 13]) :=
  ⟨by decide,
    (rx_skb_from_seg_l2pad_roundtrip (fun _ => 10) 2048
      [0, 1, 2, 3, 4, 5, 6, 7, 8, 9] [255, 255] [11, 12, 13]
      (by decide) (by decide) (by decide)).1⟩

/-- The full-queue branch of `mt7601u_dma_submit_tx`: `-ENOSPC`, nothing
touched, nothing submitted. -/
theorem submit_tx_full_helper (q : TxQueue) (skb : Skb) (submitRet : Int)
    (removed : Bool) (h : q.entries ≤ q.used) :
    mt7601u_dma_submit_tx q skb submitRet removed =
      { ret := -ENOSPC, q := q, submitted := false, removed := removed,
        events := [] } := by
  unfold mt7601u_dma_submit_tx
  rw [if_pos h]

/-- C5.  Transmit admission: with `used == capacity` the submission fails
with `-ENOSPC` without submitting a transfer and without mutating the
queue; `used` and `end` are incremented exactly on a successful
submission. -/
theorem dma_submit_tx_full_and_increment (q : TxQueue) (skb : Skb)
    (submitRet : Int) (removed : Bool) :
    (q.used = q.entries →
      (mt7601u_dma_submit_tx q skb submitRet removed).ret = -ENOSPC ∧
      (mt7601u_dma_submit_tx q skb submitRet removed).q = q ∧
      (mt7601u_dma_submit_tx q skb submitRet removed).submitted = false) ∧
    ((mt7601u_dma_submit_tx q skb submitRet removed).ret = 0 →
      (mt7601u_dma_submit_tx q skb submitRet removed).q.used = q.used + 1 ∧
      (mt7601u_dma_submit_tx q skb submitRet removed).q.end_ =
        (q.end_ + 1) % q.entries) ∧
    ((mt7601u_dma_submit_tx q skb submitRet removed).ret ≠ 0 →
      (mt7601u_dma_submit_tx q skb submitRet removed).q.used = q.used ∧
      (mt7601u_dma_submit_tx q skb submitRet removed).q.end_ = q.end_) := by
  refine ⟨?_, ?_, ?_⟩
  · intro h
    rw [submit_tx_full_helper q skb submitRet removed (by omega)]
    exact ⟨rfl, rfl, rfl⟩
  · intro h
    unfold mt7601u_dma_submit_tx at *
    by_cases hfull : q.entries ≤ q.used
    · rw [if_pos hfull] at h
      exact absurd h (by norm_num [ENOSPC])
    · rw [if_neg hfull] at h ⊢
      by_cases hs : submitRet ≠ 0
      · rw [if_pos hs] at h
        exact absurd h (by simpa using hs)
      · rw [if_neg hs]
        exact ⟨rfl, rfl⟩
  · intro h
    unfold mt7601u_dma_submit_tx at *
    by_cases hfull : q.entries ≤ q.used
    · rw [if_pos hfull]
      exact ⟨rfl, rfl⟩
    · rw [if_neg hfull] at h ⊢
      by_cases hs : submitRet ≠ 0
      · rw [if_pos hs]
        exact ⟨rfl, rfl⟩
      · rw [if_neg hs] at h
        exact absurd rfl h

/-- Closed witness for `dma_submit_tx_full_and_increment`: a full
single-slot queue is refused with `-ENOSPC`; an empty two-slot queue
accepting a transfer moves to `used = 1`. -/
theorem dma_submit_tx_full_and_increment_witness :
    (mt7601u_dma_submit_tx ⟨1, 0, 0, 1, []⟩ ⟨0, []⟩ 0 false).ret =
      -ENOSPC ∧
    (mt7601u_dma_submit_tx ⟨2, 0, 0, 0, []⟩ ⟨0, []⟩ 0 false).q.used = 1 :=
  ⟨((dma_submit_tx_full_and_increment ⟨1, 0, 0, 1, []⟩ ⟨0, []⟩ 0
      false).1 rfl).1,
   ((dma_submit_tx_full_and_increment ⟨2, 0, 0, 0, []⟩ ⟨0, []⟩ 0
      false).2.1 (by decide)).1⟩

/-- C8.  The transmit endpoint is `queue_id + 1` (u8 arithmetic); the
DMA-control word's descriptor-selector tag is the management tag exactly
when that endpoint is 5; the no-software-encryption (WIV) flag is set in
the DMA-control flags exactly when the peer record's hardware-key index is
the sentinel `0xff`; the packet-type 802.11 bit is always set. -/
theorem dma_enqueue_tx_ep_qsel_flags (q : TxQueue) (skb : Skb)
    (wcidHwKeyIdx hw_q : Nat) (submitRet : Int) (removed : Bool) :
    (mt7601u_dma_enqueue_tx q skb wcidHwKeyIdx hw_q submitRet removed).ep =
      (hw_q + 1) % 256 ∧
    ((mt7601u_dma_enqueue_tx q skb wcidHwKeyIdx hw_q submitRet
        removed).qsel = Mt76Qsel.MT_QSEL_MGMT ↔ (hw_q + 1) % 256 = 5) ∧
    ((mt7601u_dma_enqueue_tx q skb wcidHwKeyIdx hw_q submitRet
        removed).dmaFlags.testBit 1 = true ↔ wcidHwKeyIdx = 0xff) ∧
    (mt7601u_dma_enqueue_tx q skb wcidHwKeyIdx hw_q submitRet
        removed).dmaFlags.testBit 0 = true := by
  refine ⟨rfl, ?_, ?_, ?_⟩
  · dsimp only [mt7601u_dma_enqueue_tx, q2ep, ep2dmaq]
    by_cases h5 : (hw_q + 1) % 256 = 5 <;> simp [h5]
  · dsimp only [mt7601u_dma_enqueue_tx, MT_TXD_PKT_INFO_80211,
      MT_TXD_PKT_INFO_WIV]
    by_cases hk : wcidHwKeyIdx = 0xff <;> simp [hk] <;> decide
  · dsimp only [mt7601u_dma_enqueue_tx, MT_TXD_PKT_INFO_80211,
      MT_TXD_PKT_INFO_WIV]
    by_cases hk : wcidHwKeyIdx = 0xff <;> simp [hk]

/-- C9.  The frame is wrapped with the DMA-control word before the
capacity check and before submission: the wrapped frame differs from the
caller's frame (4 prepended bytes) even when the enqueue fails with
`-ENOSPC` and leaves the queue untouched. -/
theorem dma_enqueue_tx_wraps_before_admission (q : TxQueue) (skb : Skb)
    (wcidHwKeyIdx hw_q : Nat) (submitRet : Int) (removed : Bool) :
    (mt7601u_dma_enqueue_tx q skb wcidHwKeyIdx hw_q submitRet
        removed).skb =
      mt7601u_dma_skb_wrap_pkt skb (ep2dmaq (q2ep hw_q))
        (MT_TXD_PKT_INFO_80211 |||
          (if wcidHwKeyIdx = 0xff then MT_TXD_PKT_INFO_WIV else 0)) ∧
    (mt7601u_dma_enqueue_tx q skb wcidHwKeyIdx hw_q submitRet
        removed).skb.bytes.length = skb.bytes.length + 4 ∧
    (mt7601u_dma_enqueue_tx q skb wcidHwKeyIdx hw_q submitRet
        removed).skb.bytes ≠ skb.bytes ∧
    (q.used = q.entries →
      (mt7601u_dma_enqueue_tx q skb wcidHwKeyIdx hw_q submitRet
          removed).ret = -ENOSPC ∧
      (mt7601u_dma_enqueue_tx q skb wcidHwKeyIdx hw_q submitRet
          removed).q = q) := by
  have hlen : (mt7601u_dma_enqueue_tx q skb wcidHwKeyIdx hw_q submitRet
      removed).skb.bytes.length = skb.bytes.length + 4 := by
    dsimp only [mt7601u_dma_enqueue_tx, mt7601u_dma_skb_wrap_pkt]
    simp
  refine ⟨rfl, hlen, ?_, ?_⟩
  · intro hcontra
    have := congrArg List.length hcontra
    rw [hlen] at this
    omega
  · intro h
    dsimp only [mt7601u_dma_enqueue_tx]
    rw [submit_tx_full_helper _ _ submitRet removed (by omega)]
    exact ⟨rfl, rfl⟩

/-- Closed witness for `dma_enqueue_tx_wraps_before_admission`: a full
single-slot queue refuses the enqueue, yet the frame has been wrapped
(4 bytes longer). -/
theorem dma_enqueue_tx_wraps_before_admission_witness :
    (mt7601u_dma_enqueue_tx ⟨1, 0, 0, 1, []⟩ ⟨0, [9]⟩ 0 0 0
        false).skb.bytes.length = 5 ∧
    (mt7601u_dma_enqueue_tx ⟨1, 0, 0, 1, []⟩ ⟨0, [9]⟩ 0 0 0
        false).ret = -ENOSPC :=
  ⟨(dma_enqueue_tx_wraps_before_admission ⟨1, 0, 0, 1, []⟩ ⟨0, [9]⟩ 0 0 0
      false).2.1,
   ((dma_enqueue_tx_wraps_before_admission ⟨1, 0, 0, 1, []⟩ ⟨0, [9]⟩ 0 0 0
      false).2.2.2 rfl).1⟩

/-- One interleaving step never grows `pending + inflight`. -/
theorem rxSysStep_pending_le (n : Nat) (s : RxSys) (st : RingStep)
    (h : s.q.pending + s.inflight ≤ n) :
    (rxSysStep s st).q.pending + (rxSysStep s st).inflight ≤ n := by
  cases st with
  | complete =>
    by_cases hf : s.inflight = 0
    · simpa [rxSysStep, hf] using h
    · simp [rxSysStep, hf, mt7601u_complete_rx]
      omega
  | pop =>
    by_cases hp : s.q.pending = 0
    · simpa [rxSysStep, mt7601u_rx_get_pending_entry, hp] using h
    · simp [rxSysStep, mt7601u_rx_get_pending_entry, hp]
      omega

/-- `pending + inflight` stays bounded along any interleaving. -/
theorem rxSysRun_pending_le (n : Nat) (steps : List RingStep) (s : RxSys)
    (h : s.q.pending + s.inflight ≤ n) :
    (rxSysRun s steps).q.pending + (rxSysRun s steps).inflight ≤ n := by
  induction steps generalizing s with
  | nil => simpa [rxSysRun] using h
  | cons st rest ih =>
    rw [rxSysRun, List.foldl_cons]
    exact ih (rxSysStep s st) (rxSysStep_pending_le n s st h)

/-- A run of `k ≤ inflight` completion steps adds exactly `k` to `pending`
and removes `k` from `inflight`. -/
theorem rxSysRun_completes (k : Nat) (s : RxSys) (hk : k ≤ s.inflight) :
    (rxSysRun s (List.replicate k RingStep.complete)).q.pending =
      s.q.pending + k ∧
    (rxSysRun s (List.replicate k RingStep.complete)).inflight =
      s.inflight - k := by
  induction k generalizing s with
  | zero => simp [rxSysRun]
  | succ m ih =>
    have hf : s.inflight ≠ 0 := by omega
    have h1 : (rxSysStep s RingStep.complete).q.pending =
        s.q.pending + 1 := by
      simp [rxSysStep, hf, mt7601u_complete_rx]
    have h2 : (rxSysStep s RingStep.complete).inflight =
        s.inflight - 1 := by
      simp [rxSysStep, hf]
    have hrec := ih (rxSysStep s RingStep.complete) (by omega)
    have hrw : rxSysRun s (List.replicate (m + 1) RingStep.complete) =
        rxSysRun (rxSysStep s RingStep.complete)
          (List.replicate m RingStep.complete) := by
      rw [List.replicate_succ, rxSysRun, List.foldl_cons]
      rfl
    rw [hrw]
    obtain ⟨ha, hb⟩ := hrec
    constructor
    · rw [ha, h1]
      omega
    · rw [hb, h2]
      omega

/-- C6.  Receive-ring invariant: from the all-submitted initial state,
every interleaving of completion and pop steps keeps `pending ≤ N`; a pop
never moves `end` and a completion never moves `start`; an enabled
completion advances `end` and increments `pending`; a pop on a non-empty
ring advances `start` and decrements `pending`, and on an empty ring
returns `none` changing nothing; `N` straight completions from the initial
state leave `pending = N`. -/
theorem rx_ring_interleaving_invariant (n : Nat) (q : RxQueue)
    (steps : List RingStep) (hinit : rxSysInit n q) :
    (rxSysRun ⟨q, n⟩ steps).q.pending ≤ n ∧
    (∀ s : RxSys, (rxSysStep s RingStep.pop).q.end_ = s.q.end_) ∧
    (∀ s : RxSys, (rxSysStep s RingStep.complete).q.start = s.q.start) ∧
    (∀ s : RxSys, s.inflight ≠ 0 →
      (rxSysStep s RingStep.complete).q.pending = s.q.pending + 1 ∧
      (rxSysStep s RingStep.complete).q.end_ =
        (s.q.end_ + 1) % s.q.entries) ∧
    (∀ s : RxSys, s.q.pending ≠ 0 →
      (rxSysStep s RingStep.pop).q.pending = s.q.pending - 1 ∧
      (rxSysStep s RingStep.pop).q.start =
        (s.q.start + 1) % s.q.entries) ∧
    (∀ s : RxSys, s.q.pending = 0 →
      (mt7601u_rx_get_pending_entry s.q).1 = none ∧
      rxSysStep s RingStep.pop = s) ∧
    (rxSysRun ⟨q, n⟩ (List.replicate n RingStep.complete)).q.pending =
      n := by
  obtain ⟨hent, hlen, hend, hstart, hpend, hse⟩ := hinit
  refine ⟨?_, ?_, ?_, ?_, ?_, ?_, ?_⟩
  · have := rxSysRun_pending_le n steps ⟨q, n⟩ (by simp [hpend])
    omega
  · intro s
    by_cases hp : s.q.pending = 0 <;>
      simp [rxSysStep, mt7601u_rx_get_pending_entry, hp]
  · intro s
    by_cases hf : s.inflight = 0 <;>
      simp [rxSysStep, mt7601u_complete_rx, hf]
  · intro s hf
    constructor <;> simp [rxSysStep, mt7601u_complete_rx, hf]
  · intro s hp
    constructor <;> simp [rxSysStep, mt7601u_rx_get_pending_entry, hp]
  · intro s hp
    refine ⟨?_, ?_⟩
    · simp [mt7601u_rx_get_pending_entry, hp]
    · simp [rxSysStep, mt7601u_rx_get_pending_entry, hp]
  · have := (rxSysRun_completes n ⟨q, n⟩ (le_refl n)).1
    rw [this, hpend]
    omega

/-- Closed witness for `rx_ring_interleaving_invariant`: a two-entry
all-submitted ring stepped by one completion and one pop keeps
`pending ≤ 2`. -/
theorem rx_ring_interleaving_invariant_witness :
    rxSysInit 2 ⟨2, 0, 0, 0, [⟨0, 0⟩, ⟨1, 0⟩]⟩ ∧
    (rxSysRun ⟨⟨2, 0, 0, 0, [⟨0, 0⟩, ⟨1, 0⟩]⟩, 2⟩
      [RingStep.complete, RingStep.pop]).q.pending ≤ 2 := by
  have hinit : rxSysInit 2 ⟨2, 0, 0, 0, [⟨0, 0⟩, ⟨1, 0⟩]⟩ := by
    refine ⟨rfl, rfl, by decide, by decide, rfl, rfl⟩
  exact ⟨hinit,
    (rx_ring_interleaving_invariant 2 ⟨2, 0, 0, 0, [⟨0, 0⟩, ⟨1, 0⟩]⟩
      [RingStep.complete, RingStep.pop] hinit).1⟩

/-- Completing the urb of the slot at `end` always matches the expected
slot and advances the ring. -/
theorem complete_rx_self (q : RxQueue) (status : Int) :
    (mt7601u_complete_rx q (q.e.getD q.end_ default).urbId status).1 =
      { q with
          e := q.e.set q.end_ ⟨(q.e.getD q.end_ default).urbId, status⟩,
          end_ := (q.end_ + 1) % q.entries,
          pending := q.pending + 1 } := by
  simp [mt7601u_complete_rx]

/-- `mt7601u_complete_rx` never changes the ring size. -/
theorem complete_rx_entries (q : RxQueue) (uid : Nat) (status : Int) :
    (mt7601u_complete_rx q uid status).1.entries = q.entries := by
  unfold mt7601u_complete_rx
  split <;> rfl

/-- The kill loop never changes the ring size. -/
theorem kill_rx_entries (m : Nat) (q : RxQueue) :
    (kill_rx_go m q).1.entries = q.entries := by
  induction m generalizing q with
  | zero => rfl
  | succ mm ih =>
    simp only [kill_rx_go]
    rw [ih, complete_rx_entries]

/-- The kill loop poisons the entries at `end`, `end+1`, …, `end+m-1`
(mod ring size), in that order. -/
theorem kill_rx_go_trace (m : Nat) (q : RxQueue)
    (h : q.end_ < q.entries) :
    (kill_rx_go m q).2 =
      (List.range m).map
        (fun k => CleanupEvent.poisonRx ((q.end_ + k) % q.entries)) := by
  induction m generalizing q with
  | zero => simp [kill_rx_go]
  | succ mm ih =>
    have hN : 0 < q.entries := Nat.lt_of_le_of_lt (Nat.zero_le _) h
    simp only [kill_rx_go]
    rw [complete_rx_self]
    rw [ih _ (by simpa using Nat.mod_lt _ hN)]
    dsimp only
    rw [List.range_succ_eq_map, List.map_cons, List.map_map]
    congr 1
    · simp [Nat.mod_eq_of_lt h]
    · refine List.map_congr_left ?_
      intro k _
      simp only [Function.comp_apply]
      rw [Nat.mod_add_mod]
      congr 2
      omega

/-- The index carried by a poison event. -/
def CleanupEvent.poisonIdx : CleanupEvent → Option Nat
  | CleanupEvent.poisonRx i => some i
  | _ => none

/-- Recovering the poisoned indices from a pure poison trace. -/
theorem filterMap_poisonIdx_fused (l : List Nat) (f : Nat → Nat) :
    (l.map fun k => CleanupEvent.poisonRx (f k)).filterMap
      CleanupEvent.poisonIdx = l.map f := by
  induction l with
  | nil => rfl
  | cons a t ih => simp [CleanupEvent.poisonIdx, ih]

/-- A non-poison event carries no poisoned index. -/
theorem poisonIdx_none (ev : CleanupEvent) (h : ev.isPoison = false) :
    ev.poisonIdx = none := by
  cases ev <;> first
    | rfl
    | simp [CleanupEvent.isPoison] at h

/-- No event of `mt7601u_free_tx` is a poison of a receive entry. -/
theorem free_tx_no_poison (txqs : List TxQueue) (ev : CleanupEvent)
    (h : ev ∈ mt7601u_free_tx txqs) : ev.isPoison = false := by
  rw [mt7601u_free_tx, List.mem_flatMap] at h
  obtain ⟨ep, _, hev⟩ := h
  rw [mt7601u_free_tx_queue, List.mem_append] at hev
  rcases hev with hev | hev
  · by_cases hu : (txqs.getD ep default).used ≠ 0
    · rw [if_pos hu] at hev
      simp only [List.mem_singleton] at hev
      subst hev
      rfl
    · rw [if_neg hu] at hev
      simp at hev
  · rw [List.mem_map] at hev
    obtain ⟨i, _, rfl⟩ := hev
    rfl

/-- Nothing after the kill loop in the teardown trace is a poison. -/
theorem rest_no_poison (nn : Nat) (txqs : List TxQueue)
    (ev : CleanupEvent)
    (h : ev ∈ [CleanupEvent.taskletKill] ++
      (List.range nn).map CleanupEvent.freeRxBuf ++
      mt7601u_free_tx txqs) : ev.isPoison = false := by
  rw [List.mem_append, List.mem_append] at h
  rcases h with (h | h) | h
  · simp only [List.mem_singleton] at h
    subst h
    rfl
  · rw [List.mem_map] at h
    obtain ⟨i, _, rfl⟩ := h
    rfl
  · exact free_tx_no_poison txqs ev h

/-- The rotation `k ↦ (e + k) % N` of `range N` is a permutation of
`range N`. -/
theorem rotation_perm (N e : Nat) (he : e < N) :
    ((List.range N).map fun k => (e + k) % N).Perm (List.range N) := by
  have hN : 0 < N := Nat.lt_of_le_of_lt (Nat.zero_le _) he
  have hnodup : ((List.range N).map fun k => (e + k) % N).Nodup := by
    refine List.Nodup.map_on ?_ (List.nodup_range N)
    intro x hx y hy hxy
    rw [List.mem_range] at hx hy
    have hmod : x % N = y % N := Nat.ModEq.add_left_cancel' e hxy
    rwa [Nat.mod_eq_of_lt hx, Nat.mod_eq_of_lt hy] at hmod
  have hsub : ((List.range N).map fun k => (e + k) % N) ⊆ List.range N := by
    intro a ha
    rw [List.mem_map] at ha
    obtain ⟨k, _, rfl⟩ := ha
    rw [List.mem_range]
    exact Nat.mod_lt _ hN
  exact (List.subperm_of_subset hnodup hsub).perm_of_length_le (by simp)

/-- C7.  Teardown: from the all-submitted state, cleanup poisons the
in-flight transfer of every one of the `n` receive entries (the poisoned
indices are a permutation of `0..n-1`); every poison event precedes every
buffer-release / transmit-free event; freeing a transmit queue reports
loudly (warns) exactly when some slot is still marked used. -/
theorem dma_cleanup_poisons_all_then_frees (n : Nat) (rxq : RxQueue)
    (txqs : List TxQueue) (hent : rxq.entries = n) (hend : rxq.end_ < n) :
    ((mt7601u_dma_cleanup rxq txqs).2.filterMap
        CleanupEvent.poisonIdx).Perm (List.range n) ∧
    (∀ i j : Nat,
      ((mt7601u_dma_cleanup rxq txqs).2.getD i
          CleanupEvent.taskletKill).isPoison = true →
      ((mt7601u_dma_cleanup rxq txqs).2.getD j
          CleanupEvent.taskletKill).isRelease = true → i < j) ∧
    (∀ ep, ep < txqs.length →
      (CleanupEvent.warnTxUsed ep ∈ (mt7601u_dma_cleanup rxq txqs).2 ↔
        (txqs.getD ep default).used ≠ 0)) := by
  have hend' : rxq.end_ < rxq.entries := by rw [hent]; exact hend
  have htr : (mt7601u_dma_cleanup rxq txqs).2 =
      (List.range n).map
          (fun k => CleanupEvent.poisonRx ((rxq.end_ + k) % n)) ++
        ([CleanupEvent.taskletKill] ++
          (List.range n).map CleanupEvent.freeRxBuf ++
          mt7601u_free_tx txqs) := by
    rw [mt7601u_dma_cleanup]
    dsimp only
    rw [mt7601u_kill_rx, kill_rx_go_trace rxq.entries rxq hend',
      mt7601u_free_rx, kill_rx_entries, hent]
    simp [List.append_assoc]
  rw [htr]
  set P := (List.range n).map
    (fun k => CleanupEvent.poisonRx ((rxq.end_ + k) % n)) with hP
  set R := [CleanupEvent.taskletKill] ++
    (List.range n).map CleanupEvent.freeRxBuf ++
    mt7601u_free_tx txqs with hR
  have hPlen : P.length = n := by rw [hP]; simp
  have hfacts1 : ∀ m, m < n →
      ((P ++ R).getD m CleanupEvent.taskletKill).isPoison = true ∧
      ((P ++ R).getD m CleanupEvent.taskletKill).isRelease = false := by
    intro m hm
    have hmP : m < P.length := by rw [hPlen]; exact hm
    rw [List.getD_append P R CleanupEvent.taskletKill m hmP,
      List.getD_eq_getElem P CleanupEvent.taskletKill hmP]
    simp [hP, CleanupEvent.isPoison, CleanupEvent.isRelease]
  have hfacts2 : ∀ m, n ≤ m →
      ((P ++ R).getD m CleanupEvent.taskletKill).isPoison = false := by
    intro m hm
    have hmP : P.length ≤ m := by rw [hPlen]; exact hm
    rw [List.getD_append_right P R CleanupEvent.taskletKill m hmP]
    by_cases hlt : m - P.length < R.length
    · rw [List.getD_eq_getElem R CleanupEvent.taskletKill hlt]
      refine rest_no_poison n txqs _ ?_
      rw [← hR]
      exact List.getElem_mem hlt
    · rw [List.getD_eq_default R CleanupEvent.taskletKill (by omega)]
      rfl
  refine ⟨?_, ?_, ?_⟩
  · have hRnone : R.filterMap CleanupEvent.poisonIdx = [] := by
      refine List.filterMap_eq_nil_iff.mpr ?_
      intro ev hev
      refine poisonIdx_none ev (rest_no_poison n txqs ev ?_)
      rwa [← hR]
    rw [List.filterMap_append, hRnone, List.append_nil, hP,
      filterMap_poisonIdx_fused]
    exact rotation_perm n rxq.end_ hend
  · intro i j hi hj
    have hin : i < n := by
      by_contra hge
      rw [hfacts2 i (by omega)] at hi
      simp at hi
    have hjn : ¬ j < n := by
      intro hjlt
      rw [(hfacts1 j hjlt).2] at hj
      simp at hj
    omega
  · intro ep hep
    constructor
    · intro hmem
      rw [List.mem_append] at hmem
      rcases hmem with hmem | hmem
      · rw [hP, List.mem_map] at hmem
        obtain ⟨x, _, hcontra⟩ := hmem
        exact absurd hcontra (by simp)
      · rw [hR, List.mem_append, List.mem_append] at hmem
        rcases hmem with (hmem | hmem) | hmem
        · simp at hmem
        · rw [List.mem_map] at hmem
          obtain ⟨x, _, hcontra⟩ := hmem
          exact absurd hcontra (by simp)
        · rw [mt7601u_free_tx, List.mem_flatMap] at hmem
          obtain ⟨ep2, _, hev⟩ := hmem
          rw [mt7601u_free_tx_queue, List.mem_append] at hev
          rcases hev with hev | hev
          · by_cases hu : (txqs.getD ep2 default).used ≠ 0
            · rw [if_pos hu] at hev
              simp only [List.mem_singleton] at hev
              injection hev with heq
              rwa [heq]
            · rw [if_neg hu] at hev
              simp at hev
          · rw [List.mem_map] at hev
            obtain ⟨x, _, hcontra⟩ := hev
            exact absurd hcontra (by simp)
    · intro hused
      rw [List.mem_append]
      right
      rw [hR, List.mem_append]
      right
      rw [mt7601u_free_tx, List.mem_flatMap]
      refine ⟨ep, by rwa [List.mem_range], ?_⟩
      rw [mt7601u_free_tx_queue, List.mem_append]
      left
      rw [if_pos hused]
      simp

/-- Closed witness for `dma_cleanup_poisons_all_then_frees`: a one-entry
all-submitted ring with one idle transmit queue — the poisoned indices are
exactly `[0]`. -/
theorem dma_cleanup_poisons_all_then_frees_witness :
    ((mt7601u_dma_cleanup ⟨1, 0, 0, 0, [⟨0, 0⟩]⟩
        [⟨1, 0, 0, 0, []⟩]).2.filterMap CleanupEvent.poisonIdx).Perm
      (List.range 1) :=
  (dma_cleanup_poisons_all_then_frees 1 ⟨1, 0, 0, 0, [⟨0, 0⟩]⟩
    [⟨1, 0, 0, 0, []⟩] rfl (by decide)).1

end Mt7601u
